import Mathlib

/-!
Verification of the configuration resolver `src/mdformat/_conf.py`.

The resolver walks upward from a starting directory looking for a file
named `.mdformat.toml`, parses the nearest one with an external TOML
parser, validates its keys and values against a fixed schema, and returns
the validated mapping (empty if no file is found anywhere in the ancestor
chain).  Results are memoized per starting directory (`functools.lru_cache`).

Modelling choices:
* A directory path is a `List String` of its components in reverse order
  (head = deepest component), so `Path.parent` is `List.tail` and the
  filesystem root is `[]` (the root is its own parent, as in `pathlib`).
* The external structured-text parser is a black box (spec: it "returns a
  mapping from string keys to scalar/boolean/integer values, or fails with
  a syntax error"), so TOML values are booleans, integers and strings, and
  the filesystem is a structure giving, per directory, whether
  `.mdformat.toml` is a file there and what `tomllib.load` returns on it.
* Python semantics is kept where it matters: `bool` is a subclass of `int`
  (so `isinstance(wrap_value, int)` is true for booleans, which compare
  numerically with integers), and `x in \x7b"keep", "no"\x7d` is equality
  against each element.
* A raised `InvalidConfError` is the `Except.error` branch of the result.
-/

namespace Mdformat

/-- A scalar TOML value as returned by the black-box parser
(spec: "a mapping from string keys to scalar/boolean/integer values"). -/
inductive TomlValue where
  | bool (b : Bool)
  | int (n : Int)
  | str (s : String)
deriving DecidableEq, Repr

/-- A parsed TOML mapping: keys in file order, unique keys
(tomllib rejects duplicate keys, so mappings it returns never repeat a key). -/
abbrev Toml := List (String × TomlValue)

/-- `DEFAULT_OPTS` from `_conf.py`: the schema of recognized keys with their
default values (defaults are never merged by the resolver itself). -/
def DEFAULT_OPTS : Toml :=
  [ ("wrap", TomlValue.str "keep"),
    ("number", TomlValue.bool false),
    ("end_of_line", TomlValue.str "lf"),
    ("primary_bullet_list_marker", TomlValue.str "-"),
    ("secondary_bullet_list_marker", TomlValue.str "*"),
    ("primary_ordered_list_marker", TomlValue.str "."),
    ("secondary_ordered_list_marker", TomlValue.str ")"),
    ("thematic_break_character", TomlValue.str "_"),
    ("thematic_break_width", TomlValue.int 70),
    ("escape_square_brackets", TomlValue.bool true),
    ("entity_substitution", TomlValue.bool true) ]

/-- The schema's recognized key set (`key not in DEFAULT_OPTS` tests this). -/
def recognizedKeys : List String := DEFAULT_OPTS.map Prod.fst

/-- The single error kind: `InvalidConfError` carrying its message. -/
structure InvalidConfError where
  msg : String
deriving DecidableEq, Repr

/-- Result of an operation that may raise `InvalidConfError`. -/
abbrev ConfResult (α : Type) := Except InvalidConfError α

/-- Python `isinstance(v, int)`: true for integers and booleans
(`bool` is a subclass of `int`). -/
def pyIsInt : TomlValue → Bool
  | TomlValue.int _ => true
  | TomlValue.bool _ => true
  | TomlValue.str _ => false

/-- The numeric value Python uses when comparing a value as an integer
(`True == 1`, `False == 0`); only meaningful when `pyIsInt` holds. -/
def pyIntVal : TomlValue → Int
  | TomlValue.int n => n
  | TomlValue.bool b => if b then 1 else 0
  | TomlValue.str _ => 0

/-- Python `==` on scalar values: booleans compare numerically with
integers, strings only with strings, never across string/number. -/
def pyEq : TomlValue → TomlValue → Bool
  | TomlValue.bool a, TomlValue.bool b => a == b
  | TomlValue.bool a, TomlValue.int b => (if a then (1 : Int) else 0) == b
  | TomlValue.int a, TomlValue.bool b => a == (if b then (1 : Int) else 0)
  | TomlValue.int a, TomlValue.int b => a == b
  | TomlValue.str a, TomlValue.str b => a == b
  | _, _ => false

/-- Dictionary lookup `opts[k]` / membership `k in opts`. -/
def lookupOpt (opts : Toml) (k : String) : Option TomlValue :=
  List.lookup k opts

/-- Rendering of `conf_path = conf_dir / ".mdformat.toml"` used in error
messages (components are stored deepest-first, hence the `reverse`). -/
def renderConfPath (p : List String) : String :=
  String.intercalate "/" p.reverse ++ "/.mdformat.toml"

/-- One key of `set(DEFAULT_OPTS)` as Python `repr` displays it. -/
def quoteKey (k : String) : String := "\x27" ++ k ++ "\x27"

/-- Comma-join the quoted keys, as in the display of a Python set. -/
def joinKeys : List String → String
  | [] => ""
  | [k] => quoteKey k
  | k :: rest => quoteKey k ++ ", " ++ joinKeys rest

/-- The `f"\x7bset(DEFAULT_OPTS)\x7d"` part of the invalid-key message.
Python set iteration order is unspecified (string hashing is randomized per
process); the schema order is used here.  The theorems about this message
only use that every recognized key occurs in it, which holds either way. -/
def renderKeySet : String :=
  "\x7b" ++ joinKeys recognizedKeys ++ "\x7d"

/-- Message of the `InvalidConfError` raised by `_validate_keys`:
`f"Invalid key \x7bkey!r\x7d in \x7bconf_path\x7d. Keys must be one of \x7bset(DEFAULT_OPTS)\x7d."`. -/
def keyErrMsg (key : String) (conf_path : String) : String :=
  "Invalid key \x27" ++ key ++ "\x27 in " ++ conf_path ++
    ". Keys must be one of " ++ renderKeySet ++ "."

/-- Message of the `InvalidConfError` raised by `_validate_values`:
`f"Invalid \x7bkey\x7d value in \x7bconf_path\x7d"` with the key singly quoted. -/
def valueErrMsg (key : String) (conf_path : String) : String :=
  "Invalid \x27" ++ key ++ "\x27 value in " ++ conf_path

/-- Message of the `InvalidConfError` raised on a TOML parse failure:
`f"Invalid TOML syntax: \x7be\x7d"`. -/
def tomlDecodeErrMsg (e : String) : String := "Invalid TOML syntax: " ++ e

/-- `_validate_keys` from `_conf.py`: iterate over the mapping's keys in
order and raise on the first key not in `DEFAULT_OPTS`. -/
def _validate_keys (opts : Toml) (conf_path : String) : ConfResult Unit :=
  match opts with
  | [] => Except.ok ()
  | (key, _) :: rest =>
    if recognizedKeys.contains key then _validate_keys rest conf_path
    else Except.error ⟨keyErrMsg key conf_path⟩

/-- The `wrap` rule (lines 56-62): `isinstance(wrap_value, int) and
wrap_value > 1`, or membership in `\x7b"keep", "no"\x7d`. -/
def wrapValid (v : TomlValue) : Bool :=
  (pyIsInt v && decide (1 < pyIntVal v))
    || pyEq v (TomlValue.str "keep") || pyEq v (TomlValue.str "no")

/-- The `end_of_line` rule: membership in `\x7b"crlf", "lf", "keep"\x7d`. -/
def eolValid (v : TomlValue) : Bool :=
  pyEq v (TomlValue.str "crlf") || pyEq v (TomlValue.str "lf")
    || pyEq v (TomlValue.str "keep")

/-- The `number` rule: `isinstance(opts["number"], bool)`. -/
def numberValid : TomlValue → Bool
  | TomlValue.bool _ => true
  | _ => false

/-- The bullet-list-marker rule: membership in `\x7b"*", "+", "-"\x7d`. -/
def bulletValid (v : TomlValue) : Bool :=
  pyEq v (TomlValue.str "*") || pyEq v (TomlValue.str "+")
    || pyEq v (TomlValue.str "-")

/-- One `if key in opts and not valid(opts[key]): raise` block of
`_validate_values`. -/
def checkKey (opts : Toml) (key : String) (valid : TomlValue → Bool)
    (conf_path : String) : ConfResult Unit :=
  match lookupOpt opts key with
  | some v => if valid v then Except.ok () else Except.error ⟨valueErrMsg key conf_path⟩
  | none => Except.ok ()

/-- `_validate_values` from `_conf.py`: the five enforced per-key checks in
source order (`wrap`, `end_of_line`, `number`, `primary_bullet_list_marker`,
`secondary_bullet_list_marker`); the first failure raises.  The checks for
the remaining recognized keys are commented out in the source (dead code)
and therefore absent here. -/
def _validate_values (opts : Toml) (conf_path : String) : ConfResult Unit :=
  match checkKey opts "wrap" wrapValid conf_path with
  | Except.error e => Except.error e
  | Except.ok _ =>
  match checkKey opts "end_of_line" eolValid conf_path with
  | Except.error e => Except.error e
  | Except.ok _ =>
  match checkKey opts "number" numberValid conf_path with
  | Except.error e => Except.error e
  | Except.ok _ =>
  match checkKey opts "primary_bullet_list_marker" bulletValid conf_path with
  | Except.error e => Except.error e
  | Except.ok _ =>
  checkKey opts "secondary_bullet_list_marker" bulletValid conf_path

/-- The filesystem and the black-box parser, per directory: `hasConf p`
models `(p / ".mdformat.toml").is_file()`, and `parse p` models
`tomllib.load` on that file (`Except.error` is a `TOMLDecodeError` with the
given message). -/
structure FS where
  hasConf : List String → Bool
  parse : List String → Except String Toml

/-- The body of `read_toml_opts` once the configuration file has been
found in `conf_dir`: parse it, translating a decode error, then validate
keys, then values, and return the mapping unchanged. -/
def loadConf (fs : FS) (conf_dir : List String) : ConfResult Toml :=
  match fs.parse conf_dir with
  | Except.error e => Except.error ⟨tomlDecodeErrMsg e⟩
  | Except.ok toml_opts =>
    match _validate_keys toml_opts (renderConfPath conf_dir) with
    | Except.error e => Except.error e
    | Except.ok _ =>
      match _validate_values toml_opts (renderConfPath conf_dir) with
      | Except.error e => Except.error e
      | Except.ok _ => Except.ok toml_opts

/-- `conf_dir.parent`: drop the deepest component; the root is its own
parent. -/
def parentDir : List String → List String
  | [] => []
  | _ :: ds => ds

/-- `read_toml_opts` from `_conf.py` (uncached body): if `.mdformat.toml`
is not a file in `conf_dir`, return `\x7b\x7d` at the root and recurse on the
parent otherwise; if it is, load and validate it. -/
def read_toml_opts (fs : FS) : List String → ConfResult Toml
  | [] => if fs.hasConf [] then loadConf fs [] else Except.ok []
  | d :: ds =>
    if fs.hasConf (d :: ds) then loadConf fs (d :: ds)
    else read_toml_opts fs ds

/-- The directory the ancestor walk of `read_toml_opts` settles on: the
nearest ancestor (the directory itself included) holding `.mdformat.toml`,
or `none` when the walk reaches the root without finding one. -/
def findConfDir (fs : FS) : List String → Option (List String)
  | [] => if fs.hasConf [] then some [] else none
  | d :: ds =>
    if fs.hasConf (d :: ds) then some (d :: ds)
    else findConfDir fs ds

/-- Fuel-indexed variant of `read_toml_opts`: each unfolding of the walk
consumes one unit of fuel; `none` means the fuel ran out. -/
def read_toml_opts_fuel (fs : FS) : Nat → List String → Option (ConfResult Toml)
  | 0, _ => none
  | fuel + 1, p =>
    if fs.hasConf p then some (loadConf fs p)
    else
      match p with
      | [] => some (Except.ok [])
      | _ :: ds => read_toml_opts_fuel fs fuel ds

/-- The `functools.lru_cache` memo table: resolved results keyed by the
exact starting-directory argument. -/
abbrev Cache := List (List String × ConfResult Toml)

/-- `read_toml_opts` as actually called through its `lru_cache` wrapper:
every call (the recursive call on the parent included) first consults the
cache and, on a miss, stores its result under its argument before
returning. -/
def read_toml_opts_cached (fs : FS) :
    List String → Cache → ConfResult Toml × Cache
  | [], cache =>
    match cache.lookup [] with
    | some r => (r, cache)
    | none =>
      let r := if fs.hasConf [] then loadConf fs [] else Except.ok []
      (r, ([], r) :: cache)
  | d :: ds, cache =>
    match cache.lookup (d :: ds) with
    | some r => (r, cache)
    | none =>
      if fs.hasConf (d :: ds) then
        let r := loadConf fs (d :: ds)
        (r, (d :: ds, r) :: cache)
      else
        let rc := read_toml_opts_cached fs ds cache
        (rc.1, (d :: ds, rc.1) :: rc.2)

/-- The recognized keys with an enforced value rule, in checking order. -/
def enforcedChecks : List (String × (TomlValue → Bool)) :=
  [ ("wrap", wrapValid),
    ("end_of_line", eolValid),
    ("number", numberValid),
    ("primary_bullet_list_marker", bulletValid),
    ("secondary_bullet_list_marker", bulletValid) ]

/-- The recognized keys without an enforced value rule (their checks are
commented out in the source). -/
def unenforcedKeys : List String :=
  [ "primary_ordered_list_marker",
    "secondary_ordered_list_marker",
    "thematic_break_character",
    "thematic_break_width",
    "escape_square_brackets",
    "entity_substitution" ]

/-- Whether the value a mapping carries under `key` (if any) satisfies
`valid`; an absent key is vacuously fine. -/
def checkVal (opts : Toml) (key : String) (valid : TomlValue → Bool) : Bool :=
  match lookupOpt opts key with
  | some v => valid v
  | none => true

/-- A mapping is schema-conformant when every enforced key it carries
satisfies that key's rule. -/
def schemaConformant (opts : Toml) : Bool :=
  enforcedChecks.all fun kc => checkVal opts kc.1 kc.2

/-- Sample filesystem: every directory holds a configuration file parsing
to `toml`. -/
def fsConst (toml : Toml) : FS :=
  ⟨fun _ => true, fun _ => Except.ok toml⟩

/-- Sample filesystem: only directory `q` holds a configuration file, and
it parses to `toml`. -/
def fsAt (q : List String) (toml : Toml) : FS :=
  ⟨fun p => p == q, fun _ => Except.ok toml⟩

/-- Sample filesystem with no configuration file anywhere. -/
def fsNone : FS :=
  ⟨fun _ => false, fun _ => Except.ok []⟩

/-- Sample filesystem whose configuration file is malformed TOML. -/
def fsBadToml (e : String) : FS :=
  ⟨fun _ => true, fun _ => Except.error e⟩

end Mdformat

namespace Mdformat

/-! ### Helper lemmas about the error-message strings -/

theorem joinKeys_split (r : String) : ∀ l : List String, r ∈ l →
    ∃ a b, joinKeys l = a ++ r ++ b := by
  intro l
  induction l with
  | nil => intro hr; cases hr
  | cons k rest ih =>
    intro hr
    rcases List.mem_cons.mp hr with rfl | hr2
    · cases rest with
      | nil =>
        exact ⟨"\x27", "\x27", by simp [joinKeys, quoteKey]⟩
      | cons k2 rest2 =>
        exact ⟨"\x27", "\x27, " ++ joinKeys (k2 :: rest2),
          by simp [joinKeys, quoteKey, String.append_assoc]⟩
    · obtain ⟨a, b, hab⟩ := ih hr2
      cases rest with
      | nil => cases hr2
      | cons k2 rest2 =>
        exact ⟨quoteKey k ++ ", " ++ a, b,
          by simp [joinKeys, hab, String.append_assoc]⟩

theorem renderKeySet_split (r : String) (hr : r ∈ recognizedKeys) :
    ∃ a b, renderKeySet = a ++ r ++ b := by
  obtain ⟨a, b, hab⟩ := joinKeys_split r recognizedKeys hr
  exact ⟨"\x7b" ++ a, b ++ "\x7d", by simp [renderKeySet, hab, String.append_assoc]⟩

theorem keyErrMsg_names_key (k path : String) :
    ∃ a b, keyErrMsg k path = a ++ k ++ b :=
  ⟨"Invalid key \x27",
   "\x27 in " ++ path ++ ". Keys must be one of " ++ renderKeySet ++ ".",
   by simp [keyErrMsg, String.append_assoc]⟩

theorem keyErrMsg_lists (k path r : String) (hr : r ∈ recognizedKeys) :
    ∃ a b, keyErrMsg k path = a ++ r ++ b := by
  obtain ⟨a, b, hab⟩ := renderKeySet_split r hr
  refine ⟨"Invalid key \x27" ++ k ++ "\x27 in " ++ path ++
      ". Keys must be one of " ++ a, b ++ ".", ?_⟩
  simp [keyErrMsg, hab, String.append_assoc]

/-! ### Helper lemmas about the ancestor walk -/

theorem read_eq_loadConf (fs : FS) : ∀ p q : List String,
    findConfDir fs p = some q → read_toml_opts fs p = loadConf fs q := by
  intro p
  induction p with
  | nil =>
    intro q h
    by_cases hc : fs.hasConf []
    · simp [findConfDir, hc] at h
      subst h
      simp [read_toml_opts, hc]
    · simp [findConfDir, hc] at h
  | cons d ds ih =>
    intro q h
    by_cases hc : fs.hasConf (d :: ds)
    · simp [findConfDir, hc] at h
      subst h
      simp [read_toml_opts, hc]
    · simp only [findConfDir, hc, if_false] at h
      simp only [read_toml_opts, hc, if_false]
      exact ih q h

theorem read_of_find_none (fs : FS) : ∀ p : List String,
    findConfDir fs p = none → read_toml_opts fs p = Except.ok [] := by
  intro p
  induction p with
  | nil =>
    intro h
    by_cases hc : fs.hasConf []
    · simp [findConfDir, hc] at h
    · simp [read_toml_opts, hc]
  | cons d ds ih =>
    intro h
    by_cases hc : fs.hasConf (d :: ds)
    · simp [findConfDir, hc] at h
    · simp only [findConfDir, hc, if_false] at h
      simp only [read_toml_opts, hc, if_false]
      exact ih h

theorem find_none_of_no_conf (fs : FS) : ∀ p : List String,
    (∀ q : List String, q <:+ p → fs.hasConf q = false) →
    findConfDir fs p = none := by
  intro p
  induction p with
  | nil =>
    intro h
    simp [findConfDir, h [] (List.suffix_refl [])]
  | cons d ds ih =>
    intro h
    have hc := h (d :: ds) (List.suffix_refl _)
    simp only [findConfDir, hc, if_false]
    exact ih fun q hq => h q (hq.trans (List.suffix_cons d ds))

theorem findConfDir_props (fs : FS) : ∀ p q : List String,
    findConfDir fs p = some q →
    fs.hasConf q = true ∧ q <:+ p ∧
      ∀ r, r <:+ p → q <:+ r → r ≠ q → fs.hasConf r = false := by
  intro p
  induction p with
  | nil =>
    intro q h
    by_cases hc : fs.hasConf []
    · simp [findConfDir, hc] at h
      subst h
      refine ⟨hc, List.suffix_refl _, fun r hr hqr hne => ?_⟩
      exact absurd (List.suffix_nil.mp hr) hne
    · simp [findConfDir, hc] at h
  | cons d ds ih =>
    intro q h
    by_cases hc : fs.hasConf (d :: ds)
    · simp [findConfDir, hc] at h
      subst h
      refine ⟨hc, List.suffix_refl _, fun r hr hqr hne => ?_⟩
      have : r = d :: ds :=
        List.IsSuffix.eq_of_length hr
          (Nat.le_antisymm hr.length_le hqr.length_le)
      exact absurd this hne
    · simp only [findConfDir, hc, if_false] at h
      obtain ⟨h1, h2, h3⟩ := ih q h
      refine ⟨h1, h2.trans (List.suffix_cons d ds), fun r hr hqr hne => ?_⟩
      rcases List.suffix_cons_iff.mp hr with rfl | hr2
      · simpa using hc
      · exact h3 r hr2 hqr hne

end Mdformat

namespace Mdformat

/-! ### Helper lemmas about the validators -/

theorem validate_keys_ok (path : String) : ∀ opts : Toml,
    (∀ k ∈ opts.map Prod.fst, recognizedKeys.contains k = true) →
    _validate_keys opts path = Except.ok () := by
  intro opts
  induction opts with
  | nil => intro _; rfl
  | cons kv rest ih =>
    intro h
    obtain ⟨k, v⟩ := kv
    have hk : recognizedKeys.contains k = true := h k (by simp)
    simp only [_validate_keys, hk, if_true]
    exact ih fun k2 hk2 => h k2 (by simp [hk2])

theorem validate_keys_err (path k : String)
    (hbad : recognizedKeys.contains k = false) : ∀ opts : Toml,
    k ∈ opts.map Prod.fst →
    ∃ kb, kb ∈ opts.map Prod.fst ∧ recognizedKeys.contains kb = false ∧
      _validate_keys opts path = Except.error ⟨keyErrMsg kb path⟩ := by
  intro opts
  induction opts with
  | nil => intro hk; simp at hk
  | cons kv rest ih =>
    intro hk
    obtain ⟨k0, v0⟩ := kv
    by_cases hc : recognizedKeys.contains k0
    · have hk2 : k ∈ rest.map Prod.fst := by
        rcases (by simpa using hk : k = k0 ∨ k ∈ rest.map Prod.fst) with rfl | h2
        · rw [hc] at hbad; cases hbad
        · exact h2
      obtain ⟨kb, h1, h2, h3⟩ := ih hk2
      exact ⟨kb, by simp [h1], h2, by simp only [_validate_keys, hc, if_true]; exact h3⟩
    · refine ⟨k0, by simp, by simpa using hc, ?_⟩
      simp only [_validate_keys]
      rw [if_neg hc]

theorem validate_keys_err_inv (path : String) : ∀ (opts : Toml) (e : InvalidConfError),
    _validate_keys opts path = Except.error e →
    ∃ kb, kb ∈ opts.map Prod.fst ∧ recognizedKeys.contains kb = false ∧
      e = ⟨keyErrMsg kb path⟩ := by
  intro opts
  induction opts with
  | nil => intro e h; simp [_validate_keys] at h
  | cons kv rest ih =>
    intro e h
    obtain ⟨k0, v0⟩ := kv
    by_cases hc : recognizedKeys.contains k0
    · simp only [_validate_keys, hc, if_true] at h
      obtain ⟨kb, h1, h2, h3⟩ := ih e h
      exact ⟨kb, by simp [h1], h2, h3⟩
    · simp only [_validate_keys] at h
      rw [if_neg hc] at h
      injection h with h2
      exact ⟨k0, by simp, by simpa using hc, h2.symm⟩

theorem checkVal_ok (opts : Toml) (key : String) (valid : TomlValue → Bool)
    (path : String) (h : checkVal opts key valid = true) :
    checkKey opts key valid path = Except.ok () := by
  unfold checkVal at h
  unfold checkKey
  cases hl : lookupOpt opts key with
  | none => rfl
  | some v =>
    rw [hl] at h
    simp at h
    simp [h]

theorem checkKey_err (opts : Toml) (key : String) (valid : TomlValue → Bool)
    (path : String) (v : TomlValue) (hl : lookupOpt opts key = some v)
    (hv : valid v = false) :
    checkKey opts key valid path = Except.error ⟨valueErrMsg key path⟩ := by
  simp [checkKey, hl, hv]

theorem checkKey_err_inv (opts : Toml) (key : String) (valid : TomlValue → Bool)
    (path : String) (e : InvalidConfError)
    (h : checkKey opts key valid path = Except.error e) :
    ∃ v, lookupOpt opts key = some v ∧ valid v = false ∧
      e = ⟨valueErrMsg key path⟩ := by
  unfold checkKey at h
  cases hl : lookupOpt opts key with
  | none => rw [hl] at h; cases h
  | some v =>
    rw [hl] at h
    by_cases hv : valid v
    · simp [hv] at h
    · refine ⟨v, rfl, by simpa using hv, ?_⟩
      simp only [hv, Bool.false_eq_true, if_false, Except.error.injEq] at h
      exact h.symm

end Mdformat

namespace Mdformat

theorem validate_values_ok (opts : Toml) (path : String)
    (h : schemaConformant opts = true) :
    _validate_values opts path = Except.ok () := by
  simp only [schemaConformant, enforcedChecks, List.all_cons, List.all_nil,
    Bool.and_eq_true, Bool.and_true] at h
  obtain ⟨h1, h2, h3, h4, h5⟩ := h
  simp only [_validate_values,
    checkVal_ok _ _ _ path h1, checkVal_ok _ _ _ path h2,
    checkVal_ok _ _ _ path h3, checkVal_ok _ _ _ path h4,
    checkVal_ok _ _ _ path h5]

theorem validate_values_err_inv (opts : Toml) (path : String)
    (e : InvalidConfError) (h : _validate_values opts path = Except.error e) :
    ∃ key valid v, (key, valid) ∈ enforcedChecks ∧
      lookupOpt opts key = some v ∧ valid v = false ∧
      e = ⟨valueErrMsg key path⟩ := by
  unfold _validate_values at h
  cases h1 : checkKey opts "wrap" wrapValid path with
  | error e1 =>
    rw [h1] at h
    obtain ⟨v, hv1, hv2, hv3⟩ := checkKey_err_inv _ _ _ _ _ h1
    injection h with h2
    exact ⟨"wrap", wrapValid, v, by simp [enforcedChecks], hv1, hv2, by rw [← h2, hv3]⟩
  | ok u1 =>
    rw [h1] at h
    cases h2 : checkKey opts "end_of_line" eolValid path with
    | error e2 =>
      rw [h2] at h
      obtain ⟨v, hv1, hv2, hv3⟩ := checkKey_err_inv _ _ _ _ _ h2
      injection h with hh
      exact ⟨"end_of_line", eolValid, v, by simp [enforcedChecks], hv1, hv2, by rw [← hh, hv3]⟩
    | ok u2 =>
      rw [h2] at h
      cases h3 : checkKey opts "number" numberValid path with
      | error e3 =>
        rw [h3] at h
        obtain ⟨v, hv1, hv2, hv3⟩ := checkKey_err_inv _ _ _ _ _ h3
        injection h with hh
        exact ⟨"number", numberValid, v, by simp [enforcedChecks], hv1, hv2, by rw [← hh, hv3]⟩
      | ok u3 =>
        rw [h3] at h
        cases h4 : checkKey opts "primary_bullet_list_marker" bulletValid path with
        | error e4 =>
          rw [h4] at h
          obtain ⟨v, hv1, hv2, hv3⟩ := checkKey_err_inv _ _ _ _ _ h4
          injection h with hh
          exact ⟨"primary_bullet_list_marker", bulletValid, v,
            by simp [enforcedChecks], hv1, hv2, by rw [← hh, hv3]⟩
        | ok u4 =>
          rw [h4] at h
          obtain ⟨v, hv1, hv2, hv3⟩ := checkKey_err_inv _ _ _ _ _ h
          exact ⟨"secondary_bullet_list_marker", bulletValid, v,
            by simp [enforcedChecks], hv1, hv2, hv3⟩

theorem loadConf_ok_inv (fs : FS) (q : List String) (m : Toml)
    (h : loadConf fs q = Except.ok m) : fs.parse q = Except.ok m := by
  unfold loadConf at h
  split at h
  · cases h
  · rename_i toml hp
    split at h
    · cases h
    · split at h
      · cases h
      · injection h with h2
        rw [← h2]
        exact hp

theorem loadConf_of_valid (fs : FS) (q : List String) (toml : Toml)
    (hparse : fs.parse q = Except.ok toml)
    (hkeys : _validate_keys toml (renderConfPath q) = Except.ok ())
    (hvals : _validate_values toml (renderConfPath q) = Except.ok ()) :
    loadConf fs q = Except.ok toml := by
  unfold loadConf
  split
  · rename_i s hp
    rw [hparse] at hp
    cases hp
  · rename_i toml2 hp
    rw [hparse] at hp
    injection hp with hp2
    subst hp2
    split
    · rename_i ek hk
      rw [hkeys] at hk
      cases hk
    · split
      · rename_i ev hv
        rw [hvals] at hv
        cases hv
      · rfl

theorem loadConf_err_inv (fs : FS) (q : List String) (e : InvalidConfError)
    (h : loadConf fs q = Except.error e) :
    (∃ s, fs.parse q = Except.error s ∧ e = ⟨tomlDecodeErrMsg s⟩)
    ∨ (∃ toml kb, fs.parse q = Except.ok toml ∧ kb ∈ toml.map Prod.fst ∧
        recognizedKeys.contains kb = false ∧ e = ⟨keyErrMsg kb (renderConfPath q)⟩)
    ∨ (∃ toml key valid v, fs.parse q = Except.ok toml ∧
        (key, valid) ∈ enforcedChecks ∧ lookupOpt toml key = some v ∧
        valid v = false ∧ e = ⟨valueErrMsg key (renderConfPath q)⟩) := by
  unfold loadConf at h
  split at h
  · rename_i s hp
    injection h with h2
    exact Or.inl ⟨s, hp, h2.symm⟩
  · rename_i toml hp
    split at h
    · rename_i ek hk
      injection h with h2
      obtain ⟨kb, hb1, hb2, hb3⟩ := validate_keys_err_inv _ _ _ hk
      refine Or.inr (Or.inl ⟨toml, kb, hp, hb1, hb2, ?_⟩)
      rw [← h2]
      exact hb3
    · split at h
      · rename_i ev hv
        injection h with h2
        obtain ⟨key, valid, v, hc1, hc2, hc3, hc4⟩ := validate_values_err_inv _ _ _ hv
        refine Or.inr (Or.inr ⟨toml, key, valid, v, hp, hc1, hc2, hc3, ?_⟩)
        rw [← h2]
        exact hc4
      · cases h

theorem read_err_find (fs : FS) (p : List String) (e : InvalidConfError)
    (h : read_toml_opts fs p = Except.error e) :
    ∃ q, findConfDir fs p = some q ∧ loadConf fs q = Except.error e := by
  cases hf : findConfDir fs p with
  | none =>
    rw [read_of_find_none fs p hf] at h
    cases h
  | some q =>
    refine ⟨q, rfl, ?_⟩
    rw [← read_eq_loadConf fs p q hf]
    exact h

end Mdformat

namespace Mdformat

/-! ### Helper lemmas about the memoization cache and the fuel bound -/

theorem cached_stores_self (fs : FS) (p : List String) (cache : Cache) :
    ((read_toml_opts_cached fs p cache).2).lookup p
      = some (read_toml_opts_cached fs p cache).1 := by
  cases p with
  | nil =>
    cases hl : cache.lookup ([] : List String) with
    | some r => simp [read_toml_opts_cached, hl]
    | none => simp [read_toml_opts_cached, hl, List.lookup]
  | cons d ds =>
    cases hl : cache.lookup (d :: ds) with
    | some r => simp [read_toml_opts_cached, hl]
    | none =>
      by_cases hc : fs.hasConf (d :: ds)
      · simp [read_toml_opts_cached, hl, hc, List.lookup]
      · simp [read_toml_opts_cached, hl, hc, List.lookup]

theorem cached_hit (fs : FS) (p : List String) (cache : Cache)
    (r : ConfResult Toml) (h : cache.lookup p = some r) :
    read_toml_opts_cached fs p cache = (r, cache) := by
  cases p <;> simp [read_toml_opts_cached, h]

theorem cached_fst_eq_read (fs : FS) : ∀ p : List String,
    (read_toml_opts_cached fs p []).1 = read_toml_opts fs p := by
  intro p
  induction p with
  | nil => rfl
  | cons d ds ih =>
    by_cases hc : fs.hasConf (d :: ds)
    · simp [read_toml_opts_cached, List.lookup, hc, read_toml_opts]
    · simp [read_toml_opts_cached, List.lookup, hc, read_toml_opts, ih]

theorem fuel_bound (fs : FS) : ∀ p : List String,
    read_toml_opts_fuel fs (p.length + 1) p = some (read_toml_opts fs p) := by
  intro p
  induction p with
  | nil =>
    by_cases hc : fs.hasConf [] <;>
      simp [read_toml_opts_fuel, read_toml_opts, hc]
  | cons d ds ih =>
    by_cases hc : fs.hasConf (d :: ds)
    · simp [read_toml_opts_fuel, read_toml_opts, hc]
    · simp only [List.length_cons, read_toml_opts_fuel, read_toml_opts, hc,
        Bool.false_eq_true, if_false]
      exact ih

end Mdformat

namespace Mdformat

theorem loadConf_of_key_err (fs : FS) (q : List String) (toml : Toml)
    (e : InvalidConfError) (hparse : fs.parse q = Except.ok toml)
    (hk : _validate_keys toml (renderConfPath q) = Except.error e) :
    loadConf fs q = Except.error e := by
  unfold loadConf
  split
  · rename_i s hp
    rw [hparse] at hp
    cases hp
  · rename_i toml2 hp
    rw [hparse] at hp
    injection hp with hp2
    subst hp2
    split
    · rename_i ek hkk
      rw [hk] at hkk
      injection hkk with h2
      rw [h2]
    · rename_i u hkk
      rw [hk] at hkk
      cases hkk

theorem loadConf_of_value_err (fs : FS) (q : List String) (toml : Toml)
    (e : InvalidConfError) (hparse : fs.parse q = Except.ok toml)
    (hkeys : _validate_keys toml (renderConfPath q) = Except.ok ())
    (hv : _validate_values toml (renderConfPath q) = Except.error e) :
    loadConf fs q = Except.error e := by
  unfold loadConf
  split
  · rename_i s hp
    rw [hparse] at hp
    cases hp
  · rename_i toml2 hp
    rw [hparse] at hp
    injection hp with hp2
    subst hp2
    split
    · rename_i ek hkk
      rw [hkeys] at hkk
      cases hkk
    · split
      · rename_i ev hvv
        rw [hv] at hvv
        injection hvv with h2
        rw [h2]
      · rename_i u hvv
        rw [hv] at hvv
        cases hvv

/-! ### The claims -/

/-- C1: For every directory whose ancestor chain contains a configuration
file, and whose nearest such file parses successfully and contains only
recognized keys with schema-conformant values, the resolver returns
exactly the key/value pairs of that file, unmodified and not merged with
the schema defaults. -/
theorem resolve_valid_exact (fs : FS) (p q : List String) (toml : Toml)
    (hfind : findConfDir fs p = some q)
    (hparse : fs.parse q = Except.ok toml)
    (hkeys : ∀ k ∈ toml.map Prod.fst, recognizedKeys.contains k = true)
    (hvals : schemaConformant toml = true) :
    read_toml_opts fs p = Except.ok toml := by
  rw [read_eq_loadConf fs p q hfind]
  exact loadConf_of_valid fs q toml hparse
    (validate_keys_ok _ _ hkeys) (validate_values_ok _ _ hvals)

/-- Witness for C1 at a concrete filesystem and file. -/
theorem resolve_valid_exact_witness :
    read_toml_opts (fsConst [("wrap", TomlValue.int 80)]) ["docs"]
      = Except.ok [("wrap", TomlValue.int 80)] :=
  resolve_valid_exact (fsConst [("wrap", TomlValue.int 80)]) ["docs"] ["docs"]
    [("wrap", TomlValue.int 80)] rfl rfl (by decide) (by decide)

/-- C2: For every directory with no configuration file named
`.mdformat.toml` anywhere in its ancestor chain (itself, its parent, up to
the filesystem root, the directory equal to its own parent), the resolver
returns an empty mapping. -/
theorem resolve_no_conf_empty (fs : FS) (p : List String)
    (h : ∀ q : List String, q <:+ p → fs.hasConf q = false) :
    read_toml_opts fs p = Except.ok [] :=
  read_of_find_none fs p (find_none_of_no_conf fs p h)

/-- Witness for C2 at a concrete two-level directory with no
configuration file anywhere. -/
theorem resolve_no_conf_empty_witness :
    read_toml_opts fsNone ["b", "a"] = Except.ok [] :=
  resolve_no_conf_empty fsNone ["b", "a"] fun _ _ => rfl

/-- C3: For every parsed configuration mapping that contains a key not in
the schema's recognized key set, the resolver fails with
`InvalidConfError`, and the error message names the offending key and
lists the full recognized key set (each recognized key occurs in it). -/
theorem resolve_unrecognized_key_fails (fs : FS) (p q : List String)
    (toml : Toml) (k : String)
    (hfind : findConfDir fs p = some q)
    (hparse : fs.parse q = Except.ok toml)
    (hk : k ∈ toml.map Prod.fst)
    (hbad : recognizedKeys.contains k = false) :
    ∃ kb msg, read_toml_opts fs p = Except.error ⟨msg⟩
      ∧ kb ∈ toml.map Prod.fst ∧ recognizedKeys.contains kb = false
      ∧ msg = keyErrMsg kb (renderConfPath q)
      ∧ (∃ a b, msg = a ++ kb ++ b)
      ∧ (∀ r ∈ recognizedKeys, ∃ a b, msg = a ++ r ++ b) := by
  obtain ⟨kb, h1, h2, h3⟩ := validate_keys_err (renderConfPath q) k hbad toml hk
  refine ⟨kb, keyErrMsg kb (renderConfPath q), ?_, h1, h2, rfl,
    keyErrMsg_names_key kb (renderConfPath q),
    fun r hr => keyErrMsg_lists kb (renderConfPath q) r hr⟩
  rw [read_eq_loadConf fs p q hfind]
  exact loadConf_of_key_err fs q toml _ hparse h3

/-- Witness for C3: a file whose only key is the unrecognized `"color"`. -/
theorem resolve_unrecognized_key_fails_witness :
    ∃ kb msg,
      read_toml_opts (fsConst [("color", TomlValue.str "red")]) ["d"]
        = Except.error ⟨msg⟩
      ∧ kb ∈ ([("color", TomlValue.str "red")] : Toml).map Prod.fst
      ∧ recognizedKeys.contains kb = false
      ∧ msg = keyErrMsg kb (renderConfPath ["d"])
      ∧ (∃ a b, msg = a ++ kb ++ b)
      ∧ (∀ r ∈ recognizedKeys, ∃ a b, msg = a ++ r ++ b) :=
  resolve_unrecognized_key_fails (fsConst [("color", TomlValue.str "red")])
    ["d"] ["d"] [("color", TomlValue.str "red")] "color" rfl rfl
    (by decide) (by decide)

end Mdformat

namespace Mdformat

/-- C4: For every configuration mapping (with recognized keys) containing
the key `wrap`, the `wrap` check passes iff the value is an integer
strictly greater than 1 or one of the literal strings `"keep"` or `"no"`,
and the resolver fails with `InvalidConfError` otherwise; in particular
`wrap = 1` fails, `wrap = 2` succeeds, `wrap = "keep"` succeeds and
`wrap = "bad"` fails. -/
theorem resolve_wrap_rule (fs : FS) (p q : List String) (opts : Toml)
    (v : TomlValue)
    (hfind : findConfDir fs p = some q)
    (hparse : fs.parse q = Except.ok opts)
    (hkeys : ∀ k ∈ opts.map Prod.fst, recognizedKeys.contains k = true)
    (hwrap : lookupOpt opts "wrap" = some v) :
    (wrapValid v = true ↔ ((∃ n : Int, v = TomlValue.int n ∧ 1 < n)
        ∨ v = TomlValue.str "keep" ∨ v = TomlValue.str "no"))
    ∧ (wrapValid v = false →
        read_toml_opts fs p
          = Except.error ⟨valueErrMsg "wrap" (renderConfPath q)⟩)
    ∧ (wrapValid v = true →
        checkKey opts "wrap" wrapValid (renderConfPath q) = Except.ok ())
    ∧ wrapValid (TomlValue.int 1) = false ∧ wrapValid (TomlValue.int 2) = true
    ∧ wrapValid (TomlValue.str "keep") = true
    ∧ wrapValid (TomlValue.str "bad") = false := by
  refine ⟨?_, ?_, ?_, by decide, by decide, by decide, by decide⟩
  · cases v with
    | bool b => cases b <;> simp [wrapValid, pyIsInt, pyIntVal, pyEq]
    | int n => simp [wrapValid, pyIsInt, pyIntVal, pyEq]
    | str s => simp [wrapValid, pyIsInt, pyIntVal, pyEq, beq_iff_eq]
  · intro hw
    rw [read_eq_loadConf fs p q hfind]
    refine loadConf_of_value_err fs q opts _ hparse
      (validate_keys_ok _ _ hkeys) ?_
    have hck : checkKey opts "wrap" wrapValid (renderConfPath q)
        = Except.error ⟨valueErrMsg "wrap" (renderConfPath q)⟩ :=
      checkKey_err _ _ _ _ v hwrap hw
    simp [_validate_values, hck]
  · intro hw
    simp [checkKey, hwrap, hw]

/-- Witness for C4: `wrap = "bad"` makes the resolver fail with the
`wrap` value error. -/
theorem resolve_wrap_rule_witness :
    read_toml_opts (fsConst [("wrap", TomlValue.str "bad")]) ["d"]
      = Except.error ⟨valueErrMsg "wrap" (renderConfPath ["d"])⟩ :=
  (resolve_wrap_rule (fsConst [("wrap", TomlValue.str "bad")]) ["d"] ["d"]
    [("wrap", TomlValue.str "bad")] (TomlValue.str "bad")
    rfl rfl (by decide) rfl).2.1 (by decide)

/-- C5: `end_of_line` is valid iff its value is one of `"crlf"`, `"lf"`,
`"keep"`; `number` is valid iff its value is a genuine boolean (the
integers 0 and 1 and the string `"true"` fail); the two bullet-list-marker
keys are valid iff the value is one of `"*"`, `"+"`, `"-"`; each check
fails with `InvalidConfError` carrying that key's message otherwise. -/
theorem value_rules_enum_bool (opts : Toml) (path : String) (v : TomlValue) :
    ((eolValid v = true) ↔ (v = TomlValue.str "crlf" ∨ v = TomlValue.str "lf"
        ∨ v = TomlValue.str "keep"))
    ∧ ((numberValid v = true) ↔ (∃ b, v = TomlValue.bool b))
    ∧ (numberValid (TomlValue.int 0) = false
        ∧ numberValid (TomlValue.int 1) = false
        ∧ numberValid (TomlValue.str "true") = false)
    ∧ ((bulletValid v = true) ↔ (v = TomlValue.str "*" ∨ v = TomlValue.str "+"
        ∨ v = TomlValue.str "-"))
    ∧ (lookupOpt opts "end_of_line" = some v → eolValid v = false →
        checkKey opts "end_of_line" eolValid path
          = Except.error ⟨valueErrMsg "end_of_line" path⟩)
    ∧ (lookupOpt opts "number" = some v → numberValid v = false →
        checkKey opts "number" numberValid path
          = Except.error ⟨valueErrMsg "number" path⟩)
    ∧ (lookupOpt opts "primary_bullet_list_marker" = some v →
        bulletValid v = false →
        checkKey opts "primary_bullet_list_marker" bulletValid path
          = Except.error ⟨valueErrMsg "primary_bullet_list_marker" path⟩)
    ∧ (lookupOpt opts "secondary_bullet_list_marker" = some v →
        bulletValid v = false →
        checkKey opts "secondary_bullet_list_marker" bulletValid path
          = Except.error ⟨valueErrMsg "secondary_bullet_list_marker" path⟩) := by
  refine ⟨?_, ?_, by decide, ?_, ?_, ?_, ?_, ?_⟩
  · cases v <;> simp [eolValid, pyEq, beq_iff_eq, or_assoc]
  · cases v <;> simp [numberValid]
  · cases v <;> simp [bulletValid, pyEq, beq_iff_eq, or_assoc]
  · intro hl hv
    exact checkKey_err _ _ _ _ _ hl hv
  · intro hl hv
    exact checkKey_err _ _ _ _ _ hl hv
  · intro hl hv
    exact checkKey_err _ _ _ _ _ hl hv
  · intro hl hv
    exact checkKey_err _ _ _ _ _ hl hv

/-- Witness for C5: `number = 1` (an integer, not a boolean) makes the
`number` check fail with the `number` value error. -/
theorem value_rules_enum_bool_witness :
    checkKey [("number", TomlValue.int 1)] "number" numberValid "conf"
      = Except.error ⟨valueErrMsg "number" "conf"⟩ :=
  (value_rules_enum_bool [("number", TomlValue.int 1)] "conf"
    (TomlValue.int 1)).2.2.2.2.2.1 rfl rfl

/-- Value validation consults nothing but the entries under the five
enforced keys: two mappings agreeing on those lookups validate alike. -/
theorem validate_values_congr (opts2 opts : Toml) (path : String)
    (h : ∀ kc ∈ enforcedChecks, lookupOpt opts2 kc.1 = lookupOpt opts kc.1) :
    _validate_values opts2 path = _validate_values opts path := by
  have h1 : lookupOpt opts2 "wrap" = lookupOpt opts "wrap" :=
    h ("wrap", wrapValid) (by simp [enforcedChecks])
  have h2 : lookupOpt opts2 "end_of_line" = lookupOpt opts "end_of_line" :=
    h ("end_of_line", eolValid) (by simp [enforcedChecks])
  have h3 : lookupOpt opts2 "number" = lookupOpt opts "number" :=
    h ("number", numberValid) (by simp [enforcedChecks])
  have h4 : lookupOpt opts2 "primary_bullet_list_marker"
      = lookupOpt opts "primary_bullet_list_marker" :=
    h ("primary_bullet_list_marker", bulletValid) (by simp [enforcedChecks])
  have h5 : lookupOpt opts2 "secondary_bullet_list_marker"
      = lookupOpt opts "secondary_bullet_list_marker" :=
    h ("secondary_bullet_list_marker", bulletValid) (by simp [enforcedChecks])
  simp only [_validate_values, checkKey, h1, h2, h3, h4, h5]

/-- The enforced keys and the unenforced keys are disjoint. -/
theorem enforced_not_unenforced (key : String) (valid : TomlValue → Bool)
    (h : (key, valid) ∈ enforcedChecks) :
    unenforcedKeys.contains key = false := by
  simp [enforcedChecks] at h
  rcases h with ⟨h1, _⟩ | ⟨h1, _⟩ | ⟨h1, _⟩ | ⟨h1, _⟩ | ⟨h1, _⟩ <;>
    subst h1 <;> decide

/-- C6: For every configuration mapping whose keys are all recognized, the
keys without an enforced rule pass value validation with any value
whatsoever — no value for these keys ever causes the resolver to fail:
every failure names an enforced key (never an unenforced one), the
resolver succeeds whenever the enforced checks pass, whatever the
unenforced keys hold, and the validation verdict is unchanged under
arbitrary reassignment of everything but the five enforced entries. -/
theorem unenforced_keys_any_value (fs : FS) (p q : List String) (opts : Toml)
    (hfind : findConfDir fs p = some q)
    (hparse : fs.parse q = Except.ok opts)
    (hkeys : ∀ k ∈ opts.map Prod.fst, recognizedKeys.contains k = true) :
    (∀ e : InvalidConfError, read_toml_opts fs p = Except.error e →
      ∃ key valid v, (key, valid) ∈ enforcedChecks
        ∧ unenforcedKeys.contains key = false
        ∧ lookupOpt opts key = some v ∧ valid v = false
        ∧ e = ⟨valueErrMsg key (renderConfPath q)⟩)
    ∧ (schemaConformant opts = true → read_toml_opts fs p = Except.ok opts)
    ∧ (∀ opts2 : Toml,
        (∀ kc ∈ enforcedChecks, lookupOpt opts2 kc.1 = lookupOpt opts kc.1) →
        _validate_values opts2 (renderConfPath q)
          = _validate_values opts (renderConfPath q)) := by
  refine ⟨?_, ?_, fun opts2 hagree =>
    validate_values_congr opts2 opts (renderConfPath q) hagree⟩
  · intro e h
    rw [read_eq_loadConf fs p q hfind] at h
    rcases loadConf_err_inv fs q e h with
      ⟨s, hs, _⟩ | ⟨toml, kb, hp2, hb1, hb2, _⟩ |
      ⟨toml, key, valid, v, hp2, hc1, hc2, hc3, hc4⟩
    · rw [hparse] at hs
      cases hs
    · rw [hparse] at hp2
      injection hp2 with hh
      subst hh
      rw [hkeys kb hb1] at hb2
      cases hb2
    · rw [hparse] at hp2
      injection hp2 with hh
      subst hh
      exact ⟨key, valid, v, hc1, enforced_not_unenforced key valid hc1,
        hc2, hc3, hc4⟩
  · intro hvals
    rw [read_eq_loadConf fs p q hfind]
    exact loadConf_of_valid fs q opts hparse
      (validate_keys_ok _ _ hkeys) (validate_values_ok _ _ hvals)

/-- Witness for C6: a three-key mapping whose unenforced keys
`thematic_break_width` and `escape_square_brackets` hold ill-typed values
(a nonsense string and an integer) still resolves successfully. -/
theorem unenforced_keys_any_value_witness :
    read_toml_opts
      (fsConst [("thematic_break_width", TomlValue.str "nonsense"),
                ("escape_square_brackets", TomlValue.int 7),
                ("wrap", TomlValue.int 2)]) ["x"]
      = Except.ok [("thematic_break_width", TomlValue.str "nonsense"),
                   ("escape_square_brackets", TomlValue.int 7),
                   ("wrap", TomlValue.int 2)] :=
  (unenforced_keys_any_value
    (fsConst [("thematic_break_width", TomlValue.str "nonsense"),
              ("escape_square_brackets", TomlValue.int 7),
              ("wrap", TomlValue.int 2)]) ["x"] ["x"]
    [("thematic_break_width", TomlValue.str "nonsense"),
     ("escape_square_brackets", TomlValue.int 7),
     ("wrap", TomlValue.int 2)]
    rfl rfl (by decide)).2.1 (by decide)

end Mdformat

namespace Mdformat

/-- C7: Every failure of the resolver is the single error kind
`InvalidConfError` and stems from exactly one of three causes at the
directory the walk settled on — malformed TOML, an unrecognized key, or an
invalid value for an enforced key — and no partial mapping is ever
returned: a successful result is the empty mapping (no file found) or the
parser's full output. -/
theorem resolve_error_causes (fs : FS) (p : List String) :
    (∀ e : InvalidConfError, read_toml_opts fs p = Except.error e →
      ∃ q, findConfDir fs p = some q ∧
        ((∃ s, fs.parse q = Except.error s ∧ e = ⟨tomlDecodeErrMsg s⟩)
        ∨ (∃ toml kb, fs.parse q = Except.ok toml ∧ kb ∈ toml.map Prod.fst ∧
            recognizedKeys.contains kb = false
            ∧ e = ⟨keyErrMsg kb (renderConfPath q)⟩)
        ∨ (∃ toml key valid v, fs.parse q = Except.ok toml ∧
            (key, valid) ∈ enforcedChecks ∧ lookupOpt toml key = some v ∧
            valid v = false ∧ e = ⟨valueErrMsg key (renderConfPath q)⟩)))
    ∧ (∀ m : Toml, read_toml_opts fs p = Except.ok m →
        (findConfDir fs p = none ∧ m = [])
        ∨ (∃ q, findConfDir fs p = some q ∧ fs.parse q = Except.ok m)) := by
  constructor
  · intro e h
    obtain ⟨q, hq, hl⟩ := read_err_find fs p e h
    exact ⟨q, hq, loadConf_err_inv fs q e hl⟩
  · intro m h
    cases hf : findConfDir fs p with
    | none =>
      rw [read_of_find_none fs p hf] at h
      injection h with h2
      exact Or.inl ⟨rfl, h2.symm⟩
    | some q =>
      rw [read_eq_loadConf fs p q hf] at h
      exact Or.inr ⟨q, rfl, loadConf_ok_inv fs q m h⟩

/-- Witness for C7 at a filesystem with no configuration file: the
successful result is the empty mapping. -/
theorem resolve_error_causes_witness :
    (findConfDir fsNone ["d"] = none ∧ ([] : Toml) = [])
    ∨ (∃ q, findConfDir fsNone ["d"] = some q
        ∧ fsNone.parse q = Except.ok []) :=
  (resolve_error_causes fsNone ["d"]).2 [] rfl

/-- C8: Two successive calls through the memoizing wrapper with the same
starting directory return identical results, the second served from the
cache without consulting the (possibly mutated) filesystem `fs2`; on an
empty cache the wrapper computes exactly `read_toml_opts`. -/
theorem resolve_cached_idempotent (fs fs2 : FS) (p : List String)
    (cache : Cache) :
    read_toml_opts_cached fs2 p (read_toml_opts_cached fs p cache).2
      = ((read_toml_opts_cached fs p cache).1,
         (read_toml_opts_cached fs p cache).2)
    ∧ (read_toml_opts_cached fs p []).1 = read_toml_opts fs p :=
  ⟨cached_hit fs2 p _ _ (cached_stores_self fs p cache),
   cached_fst_eq_read fs p⟩

/-- C9: For every directory, when the ancestor walk finds a configuration
directory it is a genuine ancestor holding the file, no strictly nearer
ancestor holds one, and the resolver returns exactly the loaded and
validated contents of that directory's file. -/
theorem resolve_nearest_ancestor (fs : FS) (p q : List String)
    (hfind : findConfDir fs p = some q) :
    fs.hasConf q = true ∧ q <:+ p
    ∧ (∀ r, r <:+ p → q <:+ r → r ≠ q → fs.hasConf r = false)
    ∧ read_toml_opts fs p = loadConf fs q := by
  obtain ⟨h1, h2, h3⟩ := findConfDir_props fs p q hfind
  exact ⟨h1, h2, h3, read_eq_loadConf fs p q hfind⟩

/-- Witness for C9: `/a/b/c` with a configuration file only at `/a`
resolves to the contents of `/a`'s file. -/
theorem resolve_nearest_ancestor_witness :
    read_toml_opts (fsAt ["a"] [("wrap", TomlValue.str "no")]) ["c", "b", "a"]
      = loadConf (fsAt ["a"] [("wrap", TomlValue.str "no")]) ["a"] :=
  (resolve_nearest_ancestor (fsAt ["a"] [("wrap", TomlValue.str "no")])
    ["c", "b", "a"] ["a"] rfl).2.2.2

/-- C10: The resolver terminates on every directory path: the walk
finishes within depth-plus-one steps of fuel, the filesystem root is
exactly the directory equal to its own parent, and each recursive step
strictly decreases the path depth. -/
theorem resolve_terminates (fs : FS) (p : List String) :
    read_toml_opts_fuel fs (p.length + 1) p = some (read_toml_opts fs p)
    ∧ (∀ pp : List String, parentDir pp = pp ↔ pp = [])
    ∧ (p ≠ [] → (parentDir p).length < p.length) := by
  refine ⟨fuel_bound fs p, ?_, ?_⟩
  · intro pp
    cases pp with
    | nil => simp [parentDir]
    | cons d ds =>
      constructor
      · intro h
        exact absurd h.symm (List.cons_ne_self d ds)
      · intro h
        cases h
  · intro hne
    cases p with
    | nil => exact absurd rfl hne
    | cons d ds => simp [parentDir]

/-- Witness for C10 at a depth-one directory. -/
theorem resolve_terminates_witness :
    (parentDir ["a"]).length < (["a"] : List String).length :=
  (resolve_terminates fsNone ["a"]).2.2 (by decide)

end Mdformat
